import Mathlib

/-
Shallow embedding of the bug-tracker server core:
  server/models/projectModel.js, issueModel.js, commentModel.js,
  server/middleware/rbac.js, issueLoader.js, commentLoader.js,
  server/controllers/projectController.js, commentController.js.

Documents are Lean structures; Mongo ObjectIds are modelled as Nat
(the JS code compares ids via String(id); Nat equality plays that role,
so the isValidId format checks on raw hex strings are outside the model).
A collection is a List of documents.  The _id field is unique in Mongo,
so an update targeting one _id is modelled as a map over the matching
documents, and save() on a loaded document replaces the first (unique)
document with that _id.  HTTP error classes are modelled by the
constructors of ApiError; the response message texts are kept in
comments next to each branch.
-/

set_option linter.unusedVariables false

inductive Role where
  | admin
  | manager
  | developer
  deriving DecidableEq

structure User where
  uid : Nat
  role : Role
  isActive : Bool
  deriving DecidableEq

structure Project where
  pid : Nat
  key : String
  name : String
  description : String
  leadUserId : Nat
  members : List Nat
  nextIssueSeq : Nat
  deriving DecidableEq

structure Issue where
  iid : Nat
  projectId : Nat
  key : Option String
  commentCount : Int
  deriving DecidableEq

structure Comment where
  cid : Nat
  issueId : Nat
  authorId : Nat
  body : String
  parentId : Option Nat
  ancestors : List Nat
  edited : Bool
  deleted : Bool
  createdAt : Nat
  deriving DecidableEq

/-- ApiError models the HTTP error classes used by the controllers:
400 badRequest, 404 notFound, 403 forbidden, 409 conflict,
401 unauthorized, 500 serverError, and a mongoose schema validation
failure surfaced through next(err) as invalidDoc. -/
inductive ApiError where
  | badRequest
  | notFound
  | forbidden
  | conflict
  | unauthorized
  | serverError
  | invalidDoc
  deriving DecidableEq

deriving instance DecidableEq for Except

/-- From rbac.js loadCurrentUser: load the user document for the verified
caller id and fail closed (403, message: User not active or not found.)
when the record is absent or isActive is false. -/
def loadCurrentUser (users : List User) (userId : Nat) : Except ApiError User :=
  match users.find? (fun u => u.uid == userId) with
  | none => Except.error ApiError.forbidden
  | some u => if u.isActive then Except.ok u else Except.error ApiError.forbidden

/-- From rbac.js requireProjectMemberOrAdmin: 500 (Auth or project context
missing.) when either input is absent; otherwise allow admin, lead or
member, and 403 (Project access denied.) for everyone else. -/
def requireProjectMemberOrAdmin (user? : Option User) (project? : Option Project) :
    Except ApiError Unit :=
  match user?, project? with
  | some user, some project =>
    let isAdmin := user.role = Role.admin
    let isLead := project.leadUserId = user.uid
    let isMember := project.members.any (fun m => m == user.uid)
    if isAdmin ∨ isLead ∨ isMember = true then Except.ok ()
    else Except.error ApiError.forbidden
  | _, _ => Except.error ApiError.serverError

/-- From rbac.js requireProjectLeadOrAdmin: 500 (Auth or project context
missing.) when either input is absent; otherwise allow only admin or
lead, 403 (Lead or admin role required.) for everyone else. -/
def requireProjectLeadOrAdmin (user? : Option User) (project? : Option Project) :
    Except ApiError Unit :=
  match user?, project? with
  | some user, some project =>
    let isAdmin := user.role = Role.admin
    let isLead := project.leadUserId = user.uid
    if isAdmin ∨ isLead then Except.ok ()
    else Except.error ApiError.forbidden
  | _, _ => Except.error ApiError.serverError

/-- From commentController.js canEditOrModerate: guard against missing
inputs by returning false, then allow admin, project lead, or the author
of the comment. -/
def canEditOrModerate (user? : Option User) (project? : Option Project)
    (comment? : Option Comment) : Bool :=
  match user?, project?, comment? with
  | some user, some project, some comment =>
    if user.role = Role.admin then true
    else if project.leadUserId = user.uid then true
    else comment.authorId == user.uid
  | _, _, _ => false

/-- Whitespace test for the JS String.prototype.trim model. -/
def isJsWhitespace (c : Char) : Bool :=
  c = ' ' || c = '\t' || c = '\n' || c = '\r' || c = '\x0b' || c = '\x0c'

/-- Model of the JS string trim used throughout the controllers: strip
leading and trailing whitespace, by structural recursion so that
concrete runs reduce. -/
def jsTrim (s : String) : String :=
  String.mk (((s.data.dropWhile isJsWhitespace).reverse.dropWhile isJsWhitespace).reverse)

/-- Key format check from projectController.js createProject:
the regular expression test of A-Z0-9 with length between 2 and 10. -/
def keyCharOk (c : Char) : Bool := c.isUpper || c.isDigit

def keyFormatOk (s : String) : Bool :=
  decide (2 ≤ s.length) && decide (s.length ≤ 10) && s.data.all keyCharOk

/-- From projectController.js: User.countDocuments with an _id $in filter,
counting the user documents whose id lies in the given list. -/
def countDocuments (users : List User) (ids : List Nat) : Nat :=
  users.countP (fun u => ids.contains u.uid)

/-- From projectController.js createProject.  The JS builds
Array.from(new Set([leadUserId, ...members])) — one copy of each id with
the lead included; List.dedup keeps one copy of each element, which is
set-equal (insertion order is immaterial to every property proved here).
Returns the updated projects collection together with the created
document. -/
def createProject (users : List User) (projects : List Project)
    (key name description : String) (leadUserId : Nat) (members : List Nat)
    (newPid : Nat) : Except ApiError (List Project × Project) :=
  if jsTrim key = "" ∨ jsTrim name = "" then
    Except.error ApiError.badRequest  -- key, name, and leadUserId are required.
  else if keyFormatOk key = false then
    Except.error ApiError.badRequest  -- key must be 2-10 chars (A-Z, 0-9).
  else
    let uniqueUserIds := (leadUserId :: members).dedup
    if countDocuments users uniqueUserIds ≠ uniqueUserIds.length then
      Except.error ApiError.badRequest  -- One or more member ids do not exist.
    else if projects.any (fun p => p.key == key) then
      Except.error ApiError.conflict    -- Project key already exists.
    else
      let project : Project :=
        { pid := newPid, key := key, name := name, description := description,
          leadUserId := leadUserId, members := uniqueUserIds, nextIssueSeq := 1 }
      Except.ok (projects ++ [project], project)

/-- Mongo $addToSet with $each: append each id that is not yet present. -/
def addToSetEach (members : List Nat) (ids : List Nat) : List Nat :=
  ids.foldl (fun ms i => if ms.contains i then ms else ms ++ [i]) members

/-- Mongo $pull with $in: drop every member that occurs in ids. -/
def pullAll (members : List Nat) (ids : List Nat) : List Nat :=
  members.filter (fun m => !(ids.contains m))

/-- From projectController.js updateMembers, acting on the project loaded
by the middleware.  Checks run in source order: batched existence count
over the deduplicated union of both sets, then the lead-removal guard;
only after both pass is the single update (set union then set
difference) applied.  Absent add/remove bodies normalize to empty
lists. -/
def updateMembers (users : List User) (project : Project)
    (add? remove? : Option (List Nat)) : Except ApiError Project :=
  let addIds := add?.getD []
  let removeIds := remove?.getD []
  let allIds := (addIds ++ removeIds).dedup
  if countDocuments users allIds ≠ allIds.length then
    Except.error ApiError.badRequest  -- One or more user ids do not exist.
  else if removeIds.any (fun i => i == project.leadUserId) then
    Except.error ApiError.badRequest  -- Cannot remove the project lead from members.
  else
    let members1 := if addIds.isEmpty then project.members
                    else addToSetEach project.members addIds
    let members2 := if removeIds.isEmpty then members1
                    else pullAll members1 removeIds
    Except.ok { project with members := members2 }

/-- Final state of the members update as seen in the store: on any
rejection the updateOne call was never reached, so the document is
unchanged. -/
def runUpdateMembers (users : List User) (project : Project)
    (add? remove? : Option (List Nat)) : Project :=
  match updateMembers users project add? remove? with
  | Except.ok p => p
  | Except.error _ => project

/-- The $set stage of updateProject (findByIdAndUpdate): overwrite only
the supplied fields. -/
def applyProjectSet (p : Project) (name? description? : Option String)
    (lead? : Option Nat) : Project :=
  { p with
    name := name?.getD p.name,
    description := description?.getD p.description,
    leadUserId := lead?.getD p.leadUserId }

/-- Mongo $addToSet of a single member id. -/
def addToSetMember (p : Project) (uid : Nat) : Project :=
  if p.members.contains uid then p else { p with members := p.members ++ [uid] }

/-- From projectController.js updateProject: validate the supplied fields
(non-empty name, existing lead user), apply the $set, and, whenever the
lead was changed, fold the new lead into members with a follow-up
$addToSet updateOne. -/
def updateProject (users : List User) (projects : List Project) (pid : Nat)
    (name? description? : Option String) (lead? : Option Nat) :
    Except ApiError (List Project) :=
  let nameBad := match name? with
                 | some n => jsTrim n == ""
                 | none => false
  if nameBad then
    Except.error ApiError.badRequest  -- name cannot be empty.
  else
    let leadMissing := match lead? with
                       | some l => !(users.any (fun u => u.uid == l))
                       | none => false
    if leadMissing then
      Except.error ApiError.badRequest  -- Lead user does not exist.
    else
      let afterSet := projects.map (fun p =>
        if p.pid == pid then applyProjectSet p name? description? lead? else p)
      match lead? with
      | some l => Except.ok (afterSet.map (fun p =>
          if p.pid == pid then addToSetMember p l else p))
      | none => Except.ok afterSet

/-- From issueModel.js: the Project.findOneAndUpdate call in the
pre-validate hook.  One application of this function is the single
atomic read-and-increment against the store: it returns the matched
document as it was before the increment (option new:false) together
with the collection in which nextIssueSeq has been bumped by 1. -/
def findOneAndUpdateIncSeq (projects : List Project) (pid : Nat) :
    Option (Project × List Project) :=
  match projects.find? (fun p => p.pid == pid) with
  | none => none
  | some p =>
    some (p, projects.map (fun q =>
      if q.pid == pid then { q with nextIssueSeq := q.nextIssueSeq + 1 } else q))

/-- From issueModel.js, the pre-validate key generation hook: skip when a
key is already present; otherwise atomically bump the parent project
counter, fail validation when the project is absent (Project not found
for issue key generation.), and compose the key from the project key and
the pre-increment counter value. -/
def genKeyHook (projects : List Project) (issue : Issue) :
    Except String (List Project × Issue) :=
  match issue.key with
  | some _ => Except.ok (projects, issue)
  | none =>
    match findOneAndUpdateIncSeq projects issue.projectId with
    | none => Except.error ("Project not found for issue key generation.")
    | some (p, projects2) =>
      Except.ok (projects2,
        { issue with key := some (p.key ++ "-" ++ Nat.repr p.nextIssueSeq) })

/-- Persisting a new issue: the pre-validate hook runs first; only on its
success is the document inserted into the issues collection. -/
def saveNewIssue (projects : List Project) (issues : List Issue) (issue : Issue) :
    Except String (List Project × List Issue) :=
  match genKeyHook projects issue with
  | Except.error e => Except.error e
  | Except.ok (projects2, issue2) => Except.ok (projects2, issues ++ [issue2])

/-- A not-yet-persisted issue document as built by createIssue: no key,
zero comments. -/
def freshIssue (pid : Nat) (iid : Nat) : Issue :=
  { iid := iid, projectId := pid, key := none, commentCount := 0 }

/-- Sequential composition of n issue creations against the same project.
Each step is one atomic read-and-increment (genKeyHook), so any
interleaving of n concurrent creations equals this composition in the
arrival order arbitrated by the store.  Returns the final projects
collection and the generated keys in order. -/
def createIssuesN (projects : List Project) (pid : Nat) :
    Nat → List Project × List (Option String)
  | 0 => (projects, [])
  | n + 1 =>
    match genKeyHook projects (freshIssue pid 0) with
    | Except.error _ => (projects, [])
    | Except.ok (projects2, issue2) =>
      let rest := createIssuesN projects2 pid n
      (rest.1, issue2.key :: rest.2)

/-- State of the comment subsystem: the issues and comments collections. -/
structure CState where
  issues : List Issue
  comments : List Comment
  deriving DecidableEq

/-- Mongoose save-time validation of a comment document
(commentModel.js): the body setter trims; body is required (non-empty)
only when the comment is not deleted; maxlength 5000 applies always.
Returns the stored document on success. -/
def commentValidate (c : Comment) : Option Comment :=
  let t := { c with body := jsTrim c.body }
  if (t.deleted = true ∨ t.body ≠ "") ∧ t.body.length ≤ 5000 then some t else none

/-- Document.save() for a loaded comment: replace the document with the
matching _id (unique, hence the first match). -/
def replaceFirstComment : List Comment → Comment → List Comment
  | [], _ => []
  | x :: xs, c => if x.cid == c.cid then c :: xs else x :: replaceFirstComment xs c

/-- Issue.updateOne with $inc on commentCount for the given issue id. -/
def incCommentCount (issues : List Issue) (iid : Nat) (d : Int) : List Issue :=
  issues.map (fun i =>
    if i.iid == iid then { i with commentCount := i.commentCount + d } else i)

/-- From issueLoader.js loadIssue: load the issue by id and its parent
project, 404 when either is absent. -/
def loadIssue (projects : List Project) (issues : List Issue) (issueId : Nat) :
    Except ApiError (Issue × Project) :=
  match issues.find? (fun i => i.iid == issueId) with
  | none => Except.error ApiError.notFound      -- Issue not found.
  | some issue =>
    match projects.find? (fun p => p.pid == issue.projectId) with
    | none => Except.error ApiError.notFound    -- Project not found.
    | some project => Except.ok (issue, project)

/-- From commentLoader.js loadComment: load the comment by id, then its
issue, then its project; 404 when any is absent. -/
def loadComment (projects : List Project) (s : CState) (commentId : Nat) :
    Except ApiError (Comment × Issue × Project) :=
  match s.comments.find? (fun c => c.cid == commentId) with
  | none => Except.error ApiError.notFound      -- Comment not found.
  | some comment =>
    match s.issues.find? (fun i => i.iid == comment.issueId) with
    | none => Except.error ApiError.notFound    -- Issue not found for comment.
    | some issue =>
      match projects.find? (fun p => p.pid == issue.projectId) with
      | none => Except.error ApiError.notFound  -- Project not found for comment.
      | some project => Except.ok (comment, issue, project)

/-- From commentController.js createComment, after the route middleware
attached issue, project and user: validate the body, resolve the parent
when replying (404 when absent, 400 when it belongs to another issue),
build the ancestors chain, create the comment document (schema
validation included) and increment the commentCount of the issue. -/
def createComment (s : CState) (issue : Issue) (user : User)
    (body : String) (parentId : Option Nat) (newCid : Nat) (now : Nat) :
    Except ApiError (CState × Comment) :=
  if jsTrim body = "" then
    Except.error ApiError.badRequest            -- body is required.
  else
    let mkComment := fun (ancestors : List Nat) =>
      let c0 : Comment :=
        { cid := newCid, issueId := issue.iid, authorId := user.uid,
          body := body, parentId := parentId, ancestors := ancestors,
          edited := false, deleted := false, createdAt := now }
      match commentValidate c0 with
      | none => Except.error ApiError.invalidDoc
      | some c =>
        Except.ok ({ issues := incCommentCount s.issues issue.iid 1,
                     comments := s.comments ++ [c] }, c)
    match parentId with
    | none => mkComment []
    | some pcid =>
      match s.comments.find? (fun c => c.cid == pcid) with
      | none => Except.error ApiError.notFound  -- Parent comment not found.
      | some parent =>
        if parent.issueId ≠ issue.iid then
          Except.error ApiError.badRequest      -- Parent belongs to a different issue.
        else
          mkComment (parent.ancestors ++ [parent.cid])

/-- From commentController.js updateComment: refetch the comment document,
check canEditOrModerate (403: Not allowed to edit this comment.),
require a supplied non-empty body, set body and edited and save. -/
def updateComment (s : CState) (user? : Option User) (project? : Option Project)
    (commentId : Nat) (body? : Option String) : Except ApiError (CState × Comment) :=
  match s.comments.find? (fun c => c.cid == commentId) with
  | none => Except.error ApiError.notFound      -- Comment not found.
  | some commentDoc =>
    if canEditOrModerate user? project? (some commentDoc) then
      match body? with
      | none => Except.error ApiError.badRequest   -- body is required.
      | some body =>
        if jsTrim body = "" then
          Except.error ApiError.badRequest         -- body cannot be empty.
        else
          let c1 := { commentDoc with body := body, edited := true }
          match commentValidate c1 with
          | none => Except.error ApiError.invalidDoc
          | some c2 =>
            Except.ok ({ s with comments := replaceFirstComment s.comments c2 }, c2)
    else Except.error ApiError.forbidden

/-- From commentController.js deleteComment: refetch the comment document,
check canEditOrModerate (403: Not allowed to delete this comment.),
no-op 204 when already deleted, otherwise clear the body, set deleted,
save, and decrement the commentCount of the issue attached by the
loader. -/
def deleteComment (s : CState) (user? : Option User) (project? : Option Project)
    (issue : Issue) (commentId : Nat) : Except ApiError CState :=
  match s.comments.find? (fun c => c.cid == commentId) with
  | none => Except.error ApiError.notFound      -- Comment not found.
  | some commentDoc =>
    if canEditOrModerate user? project? (some commentDoc) then
      if commentDoc.deleted then Except.ok s
      else
        let c1 := { commentDoc with deleted := true, body := "" }
        match commentValidate c1 with
        | none => Except.error ApiError.invalidDoc
        | some c2 =>
          Except.ok { issues := incCommentCount s.issues issue.iid (-1),
                      comments := replaceFirstComment s.comments c2 }
    else Except.error ApiError.forbidden

/-- Route chain of PATCH /comments/:id (commentRoutes.js): verifyJWT and
loadCurrentUser resolved the caller, then loadComment, then
requireProjectMemberOrAdmin, then the updateComment controller. -/
def updateCommentChain (projects : List Project) (s : CState) (user : User)
    (commentId : Nat) (body? : Option String) : Except ApiError (CState × Comment) :=
  match loadComment projects s commentId with
  | Except.error e => Except.error e
  | Except.ok (_, _, project) =>
    match requireProjectMemberOrAdmin (some user) (some project) with
    | Except.error e => Except.error e
    | Except.ok _ => updateComment s (some user) (some project) commentId body?

/-- Route chain of DELETE /comments/:id (commentRoutes.js): loadComment,
requireProjectMemberOrAdmin, then the deleteComment controller with the
issue attached by the loader. -/
def deleteCommentChain (projects : List Project) (s : CState) (user : User)
    (commentId : Nat) : Except ApiError CState :=
  match loadComment projects s commentId with
  | Except.error e => Except.error e
  | Except.ok (_, issue, project) =>
    match requireProjectMemberOrAdmin (some user) (some project) with
    | Except.error e => Except.error e
    | Except.ok _ => deleteComment s (some user) (some project) issue commentId

/-- Route chain of POST /issues/:id/comments (commentRoutes.js):
loadCurrentUser, loadIssue, requireProjectMemberOrAdmin, then the
createComment controller. -/
def createCommentChain (users : List User) (projects : List Project) (s : CState)
    (issueId : Nat) (userId : Nat) (body : String) (parentId : Option Nat)
    (newCid : Nat) (now : Nat) : Except ApiError (CState × Comment) :=
  match loadCurrentUser users userId with
  | Except.error e => Except.error e
  | Except.ok user =>
    match loadIssue projects s.issues issueId with
    | Except.error e => Except.error e
    | Except.ok (issue, project) =>
      match requireProjectMemberOrAdmin (some user) (some project) with
      | Except.error e => Except.error e
      | Except.ok _ => createComment s issue user body parentId newCid now

/-- Comparison used by both listing endpoints: createdAt ascending with
_id ascending as the tiebreaker (the .sort spec createdAt:1, _id:1). -/
def commentLe (a b : Comment) : Bool :=
  decide (a.createdAt < b.createdAt ∨ (a.createdAt = b.createdAt ∧ a.cid ≤ b.cid))

/-- From commentController.js listIssueComments: top-level, not deleted
comments of the issue, sorted by (createdAt, _id), paginated with the
skip offset and the limit page size (default 20, capped at 100). -/
def listIssueComments (s : CState) (issueId : Nat) (limit? skip? : Option Nat) :
    Except ApiError (List Comment) :=
  match s.issues.find? (fun i => i.iid == issueId) with
  | none => Except.error ApiError.notFound      -- Issue not found.
  | some issue =>
    let limit := min (limit?.getD 20) 100
    let skip := skip?.getD 0
    Except.ok ((((s.comments.filter (fun c =>
      c.issueId == issue.iid && c.parentId == none && !c.deleted)).mergeSort
        commentLe).drop skip).take limit)

/-- From commentController.js listReplies: the direct children of the
parent comment (exact parentId match) on the same issue, not deleted,
sorted by (createdAt, _id), paginated (default 50, capped at 200). -/
def listReplies (s : CState) (commentId : Nat) (limit? skip? : Option Nat) :
    Except ApiError (List Comment) :=
  match s.comments.find? (fun c => c.cid == commentId) with
  | none => Except.error ApiError.notFound      -- Comment not found.
  | some parent =>
    let limit := min (limit?.getD 50) 200
    let skip := skip?.getD 0
    Except.ok ((((s.comments.filter (fun c =>
      c.issueId == parent.issueId && c.parentId == some parent.cid
        && !c.deleted)).mergeSort commentLe).drop skip).take limit)

/-- One client request against the comment subsystem: either a comment
creation or a soft delete, both running their full route chain. -/
inductive TOp where
  | create (userId : Nat) (issueId : Nat) (body : String) (parentId : Option Nat)
      (newCid : Nat) (now : Nat)
  | softDelete (userId : Nat) (commentId : Nat)

/-- Effect of one request on the stored state: a rejected request leaves
the collections untouched. -/
def stepOp (users : List User) (projects : List Project) (s : CState) :
    TOp → CState
  | TOp.create userId issueId body parentId newCid now =>
    match createCommentChain users projects s issueId userId body parentId newCid now with
    | Except.ok (s2, _) => s2
    | Except.error _ => s
  | TOp.softDelete userId commentId =>
    match loadCurrentUser users userId with
    | Except.error _ => s
    | Except.ok user =>
      match deleteCommentChain projects s user commentId with
      | Except.ok s2 => s2
      | Except.error _ => s

/-- Folding a whole request sequence over the state. -/
def runOps (users : List User) (projects : List Project) (s : CState) :
    List TOp → CState
  | [] => s
  | op :: rest => runOps users projects (stepOp users projects s op) rest

/-- Number of live (not soft-deleted) comments of an issue: over any
request history this equals comment creations minus first-time soft
deletions for that issue. -/
def liveCount (comments : List Comment) (iid : Nat) : Int :=
  (comments.countP (fun c => c.issueId == iid && !c.deleted) : Nat)

/-- Counter conservation invariant: every stored issue counts exactly its
live comments. -/
def CountInv (s : CState) : Prop :=
  ∀ i ∈ s.issues, i.commentCount = liveCount s.comments i.iid

/-- Numeric value of a decimal digit character. -/
def digitVal (c : Char) : Nat := c.toNat - 48

/-- Decode a decimal digit string, most significant digit first. -/
def decodeDigits (l : List Char) : Nat :=
  l.foldl (fun a c => 10 * a + digitVal c) 0

theorem digitVal_digitChar (n : Nat) (h : n < 10) :
    digitVal (Nat.digitChar n) = n := by
  have hall : ∀ m < 10, digitVal (Nat.digitChar m) = m := by decide
  exact hall n h

theorem toDigitsCore_decode (f : Nat) :
    ∀ (n : Nat) (l : List Char), n < 10 ^ f →
      ∃ k, ∀ a, List.foldl (fun a c => 10 * a + digitVal c) a (Nat.toDigitsCore 10 f n l)
        = List.foldl (fun a c => 10 * a + digitVal c) (a * 10 ^ k + n) l := by
  induction f with
  | zero =>
    intro n l h
    interval_cases n
    exact ⟨0, fun a => by simp [Nat.toDigitsCore]⟩
  | succ f ih =>
    intro n l h
    by_cases h10 : n / 10 = 0
    · have hn : n < 10 := by omega
      refine ⟨1, fun a => ?_⟩
      simp only [Nat.toDigitsCore, h10, if_true, List.foldl_cons]
      rw [digitVal_digitChar (n % 10) (Nat.mod_lt _ (by norm_num))]
      have hmod : n % 10 = n := Nat.mod_eq_of_lt hn
      rw [hmod]
      have hseed : 10 * a + n = a * 10 ^ 1 + n := by ring
      rw [hseed]
    · have hdiv : n / 10 < 10 ^ f := by
        rw [Nat.div_lt_iff_lt_mul (by norm_num : 0 < 10)]
        calc n < 10 ^ (f + 1) := h
          _ = 10 ^ f * 10 := by ring
      obtain ⟨k, hk⟩ := ih (n / 10) (Nat.digitChar (n % 10) :: l) hdiv
      refine ⟨k + 1, fun a => ?_⟩
      simp only [Nat.toDigitsCore, h10, if_false, ite_false]
      rw [hk a, List.foldl_cons]
      rw [digitVal_digitChar (n % 10) (Nat.mod_lt _ (by norm_num))]
      have hseed : 10 * (a * 10 ^ k + n / 10) + n % 10
           = a * 10 ^ (k + 1) + (10 * (n / 10) + n % 10) := by ring
      rw [hseed, Nat.div_add_mod n 10]

theorem decode_toDigits (n : Nat) : decodeDigits (Nat.toDigits 10 n) = n := by
  have hb : n < 10 ^ (n + 1) := by
    calc n < 2 ^ n := Nat.lt_two_pow n
      _ ≤ 10 ^ n := Nat.pow_le_pow_left (by norm_num) n
      _ ≤ 10 ^ (n + 1) := Nat.pow_le_pow_right (by norm_num) (Nat.le_succ n)
  obtain ⟨k, hk⟩ := toDigitsCore_decode (n + 1) n [] hb
  unfold decodeDigits Nat.toDigits
  rw [hk 0]
  simp

theorem string_data_inj {s t : String} (h : s.data = t.data) : s = t := by
  cases s
  cases t
  exact congrArg String.mk h

theorem natRepr_injective : Function.Injective Nat.repr := by
  intro a b h
  have hdig : Nat.toDigits 10 a = Nat.toDigits 10 b := congrArg String.data h
  calc a = decodeDigits (Nat.toDigits 10 a) := (decode_toDigits a).symm
    _ = decodeDigits (Nat.toDigits 10 b) := by rw [hdig]
    _ = b := decode_toDigits b

theorem string_data_append (s t : String) : (s ++ t).data = s.data ++ t.data := rfl

/-- Two issue keys composed from the same project key agree only when the
captured sequence values agree. -/
theorem keyCompose_inj (pk : String) (a b : Nat)
    (h : pk ++ "-" ++ Nat.repr a = pk ++ "-" ++ Nat.repr b) : a = b := by
  apply natRepr_injective
  apply string_data_inj
  have hd := congrArg String.data h
  rw [string_data_append, string_data_append] at hd
  exact List.append_cancel_left hd

/-- The atomic increment leaves the project findable, with only the
counter changed. -/
theorem find?_bump (l : List Project) (pid : Nat) :
    (l.map (fun q => if q.pid == pid then { q with nextIssueSeq := q.nextIssueSeq + 1 }
                     else q)).find? (fun p => p.pid == pid)
    = (l.find? (fun p => p.pid == pid)).map
        (fun q => { q with nextIssueSeq := q.nextIssueSeq + 1 }) := by
  rw [List.find?_map]
  have hcomp : ((fun p : Project => p.pid == pid) ∘
      (fun q : Project => if q.pid == pid then { q with nextIssueSeq := q.nextIssueSeq + 1 }
                          else q)) = (fun q : Project => q.pid == pid) := by
    funext q
    by_cases hq : q.pid = pid
    · simp [Function.comp, hq]
    · simp [Function.comp, hq]
  rw [hcomp]
  cases hf : l.find? (fun q => q.pid == pid) with
  | none => rfl
  | some q =>
    have hq : q.pid = pid := by simpa using List.find?_some hf
    simp [hq]

theorem genKeyHook_ok_key (projects : List Project) (issue : Issue)
    (ps2 : List Project) (i2 : Issue)
    (h : genKeyHook projects issue = Except.ok (ps2, i2)) : i2.key.isSome = true := by
  unfold genKeyHook at h
  split at h
  · rename_i k hk
    have h2 : issue = i2 := by
      have := h
      simp only [Except.ok.injEq, Prod.mk.injEq] at this
      exact this.2
    rw [← h2, hk]
    rfl
  · rename_i hk
    split at h
    · exact absurd h (by simp)
    · rename_i p ps3 hpr
      simp only [Except.ok.injEq, Prod.mk.injEq] at h
      rw [← h.2]
      rfl

/-- Helper for C2: the keys produced by n sequential atomic creations
against a findable project are exactly the contiguous sequence starting
at the current counter, and the counter advances by n. -/
theorem createIssuesN_spec (pid : Nat) (n : Nat) :
    ∀ (projects : List Project) (p : Project),
      projects.find? (fun q => q.pid == pid) = some p →
      (createIssuesN projects pid n).2
        = (List.range' p.nextIssueSeq n).map
            (fun v => some (p.key ++ "-" ++ Nat.repr v))
      ∧ (createIssuesN projects pid n).1.find? (fun q => q.pid == pid)
        = some { p with nextIssueSeq := p.nextIssueSeq + n } := by
  induction n with
  | zero =>
    intro projects p hp
    refine ⟨rfl, ?_⟩
    simpa using hp
  | succ n ih =>
    intro projects p hp
    have hgen : genKeyHook projects (freshIssue pid 0)
        = Except.ok
            (projects.map (fun q => if q.pid == pid
                then { q with nextIssueSeq := q.nextIssueSeq + 1 } else q),
             { freshIssue pid 0 with
                 key := some (p.key ++ "-" ++ Nat.repr p.nextIssueSeq) }) := by
      simp [genKeyHook, freshIssue, findOneAndUpdateIncSeq, hp]
    have hfind2 : (projects.map (fun q => if q.pid == pid
        then { q with nextIssueSeq := q.nextIssueSeq + 1 } else q)).find?
          (fun q => q.pid == pid)
        = some { p with nextIssueSeq := p.nextIssueSeq + 1 } := by
      rw [find?_bump, hp]
      rfl
    obtain ⟨ih1, ih2⟩ := ih _ _ hfind2
    constructor
    · simp only [createIssuesN, hgen]
      rw [List.range'_succ, List.map_cons]
      congr 1
    · simp only [createIssuesN, hgen]
      rw [ih2]
      have harith : p.nextIssueSeq + 1 + n = p.nextIssueSeq + (n + 1) := by omega
      simp [harith]

/-- C2: for N concurrent issue creations against the same project the
resulting keys are pairwise distinct and form the contiguous increasing
sequence projectKey-s, projectKey-(s+1), ..., so no duplicate key is
ever persisted, and the counter has advanced by N.  Every creation
performs its read-and-increment as one atomic store operation
(findOneAndUpdateIncSeq inside genKeyHook), so an arbitrary interleaving
of N concurrent creations is the sequential composition createIssuesN in
the order arbitrated by the store; the theorem covers all such orders
because it holds for every starting collection in which the project is
findable. -/
theorem claim_C2_concurrent_key_uniqueness
    (projects : List Project) (pid : Nat) (p : Project) (n : Nat)
    (hp : projects.find? (fun q => q.pid == pid) = some p) :
    (createIssuesN projects pid n).2
      = (List.range' p.nextIssueSeq n).map
          (fun v => some (p.key ++ "-" ++ Nat.repr v))
    ∧ ((createIssuesN projects pid n).2).Nodup
    ∧ (createIssuesN projects pid n).1.find? (fun q => q.pid == pid)
      = some { p with nextIssueSeq := p.nextIssueSeq + n } := by
  obtain ⟨h1, h2⟩ := createIssuesN_spec pid n projects p hp
  refine ⟨h1, ?_, h2⟩
  rw [h1]
  apply List.Nodup.map_on
  · intro x hx y hy hxy
    exact keyCompose_inj p.key x y (Option.some.inj hxy)
  · exact List.nodup_range' p.nextIssueSeq n

/-- Concrete project used by several witnesses: key BT, lead user 1. -/
def projBT : Project :=
  { pid := 1, key := "BT", name := "Bug Tracker", description := "",
    leadUserId := 1, members := [1], nextIssueSeq := 1 }

theorem claim_C2_concurrent_key_uniqueness_witness :
    (createIssuesN [projBT] 1 3).2
      = (List.range' 1 3).map (fun v => some ("BT" ++ "-" ++ Nat.repr v))
    ∧ ((createIssuesN [projBT] 1 3).2).Nodup
    ∧ (createIssuesN [projBT] 1 3).1.find? (fun q => q.pid == 1)
      = some { projBT with nextIssueSeq := 1 + 3 } :=
  claim_C2_concurrent_key_uniqueness [projBT] 1 projBT 3 rfl

/-- C1: on first persistence of an issue, (i) a key already present skips
generation entirely; (ii) otherwise the parent project counter is
incremented by 1 while the pre-increment value is captured by the same
single atomic store operation (the one findOneAndUpdateIncSeq
application that produces both components of the result), and the issue
key is set to projectKey-capturedValue; (iii) when the parent project
cannot be found the creation fails entirely; (iv) hence a successful
save never persists an issue without a key. -/
theorem claim_C1_key_generation :
    (∀ (projects : List Project) (issue : Issue) (k : String),
      issue.key = some k →
      genKeyHook projects issue = Except.ok (projects, issue))
    ∧ (∀ (projects : List Project) (issue : Issue) (p : Project),
        issue.key = none →
        projects.find? (fun q => q.pid == issue.projectId) = some p →
        genKeyHook projects issue
          = Except.ok
              (projects.map (fun q => if q.pid == issue.projectId
                  then { q with nextIssueSeq := q.nextIssueSeq + 1 } else q),
               { issue with key := some (p.key ++ "-" ++ Nat.repr p.nextIssueSeq) }))
    ∧ (∀ (projects : List Project) (issues : List Issue) (issue : Issue),
        issue.key = none →
        projects.find? (fun q => q.pid == issue.projectId) = none →
        saveNewIssue projects issues issue
          = Except.error ("Project not found for issue key generation."))
    ∧ (∀ (projects : List Project) (issues : List Issue) (issue : Issue)
        (out : List Project × List Issue),
        saveNewIssue projects issues issue = Except.ok out →
        (∀ i ∈ issues, i.key.isSome = true) →
        ∀ i ∈ out.2, i.key.isSome = true) := by
  refine ⟨?_, ?_, ?_, ?_⟩
  · intro projects issue k hk
    simp [genKeyHook, hk]
  · intro projects issue p hk hp
    simp [genKeyHook, hk, findOneAndUpdateIncSeq, hp]
  · intro projects issues issue hk hp
    simp [saveNewIssue, genKeyHook, hk, findOneAndUpdateIncSeq, hp]
  · intro projects issues issue out hok hprev i hi
    unfold saveNewIssue at hok
    cases hgen : genKeyHook projects issue with
    | error e => rw [hgen] at hok; exact absurd hok (by simp)
    | ok pr =>
      rw [hgen] at hok
      have hout : out = (pr.1, issues ++ [pr.2]) := by
        cases pr
        simpa using hok.symm
      rw [hout] at hi
      rcases List.mem_append.mp hi with hold | hnew
      · exact hprev i hold
      · have : i = pr.2 := by simpa using hnew
        rw [this]
        cases pr with
        | mk a b => exact genKeyHook_ok_key projects issue a b hgen

/-- An issue that already carries a key, used by the C1 witness. -/
def importedIssue : Issue :=
  { iid := 9, projectId := 1, key := some ("ZZ-5"), commentCount := 0 }

theorem claim_C1_key_generation_witness :
    genKeyHook [projBT] importedIssue = Except.ok ([projBT], importedIssue)
    ∧ genKeyHook [projBT] (freshIssue 1 7)
      = Except.ok
          ([projBT].map (fun q => if q.pid == 1
              then { q with nextIssueSeq := q.nextIssueSeq + 1 } else q),
           { freshIssue 1 7 with key := some ("BT" ++ "-" ++ Nat.repr 1) })
    ∧ saveNewIssue [] [] (freshIssue 1 7)
      = Except.error ("Project not found for issue key generation.")
    ∧ ({ freshIssue 1 7 with
          key := some ("BT" ++ "-" ++ Nat.repr 1) } : Issue).key.isSome = true :=
  ⟨claim_C1_key_generation.1 [projBT] importedIssue "ZZ-5" rfl,
   claim_C1_key_generation.2.1 [projBT] (freshIssue 1 7) projBT rfl rfl,
   claim_C1_key_generation.2.2.1 [] [] (freshIssue 1 7) rfl rfl,
   claim_C1_key_generation.2.2.2 [projBT] [] (freshIssue 1 7)
     ([{ projBT with nextIssueSeq := 2 }],
      [{ freshIssue 1 7 with key := some ("BT" ++ "-" ++ Nat.repr 1) }])
     (by rfl) (by simp)
     { freshIssue 1 7 with key := some ("BT" ++ "-" ++ Nat.repr 1) } (by simp)⟩

theorem mem_addToSetEach (x : Nat) (ids : List Nat) :
    ∀ ms : List Nat, x ∈ ms → x ∈ addToSetEach ms ids := by
  induction ids with
  | nil => intro ms hx; exact hx
  | cons i ids ih =>
    intro ms hx
    have hstep : addToSetEach ms (i :: ids)
        = addToSetEach (if ms.contains i then ms else ms ++ [i]) ids := rfl
    rw [hstep]
    apply ih
    by_cases h : ms.contains i
    · simp only [if_pos h]
      exact hx
    · simp only [if_neg h]
      exact List.mem_append_left _ hx

theorem mem_pullAll (x : Nat) (ms ids : List Nat) (hx : x ∈ ms)
    (hni : x ∉ ids) : x ∈ pullAll ms ids := by
  unfold pullAll
  refine List.mem_filter.mpr ⟨hx, ?_⟩
  simpa using hni

theorem addToSetMember_spec (p : Project) (u : Nat) :
    (addToSetMember p u).leadUserId = p.leadUserId
    ∧ (addToSetMember p u).pid = p.pid
    ∧ u ∈ (addToSetMember p u).members := by
  by_cases h : p.members.contains u
  · have hm : u ∈ p.members := by simpa using h
    simp [addToSetMember, h, hm]
  · have hm : u ∉ p.members := by simpa using h
    simp [addToSetMember, hm]

/-- C3: after any successful createProject, updateMembers, or lead-change
updateProject call, the lead is an element of the member set: creation
folds the lead into the deduplicated member list; updateMembers never
removes the lead (the remove guard) and leaves the lead id untouched, so
it preserves the invariant; a lead change through updateProject re-adds
the new lead to members with the follow-up $addToSet. -/
theorem claim_C3_lead_in_members :
    (∀ (users : List User) (projects : List Project)
       (key name description : String) (leadUserId : Nat) (members : List Nat)
       (newPid : Nat) (ps2 : List Project) (proj : Project),
      createProject users projects key name description leadUserId members newPid
        = Except.ok (ps2, proj) →
      proj.leadUserId ∈ proj.members)
    ∧ (∀ (users : List User) (project : Project) (add? remove? : Option (List Nat))
         (p2 : Project),
        updateMembers users project add? remove? = Except.ok p2 →
        project.leadUserId ∈ project.members →
        p2.leadUserId = project.leadUserId ∧ p2.leadUserId ∈ p2.members)
    ∧ (∀ (users : List User) (projects : List Project) (pid : Nat)
         (name? description? : Option String) (l : Nat) (ps2 : List Project),
        updateProject users projects pid name? description? (some l)
          = Except.ok ps2 →
        ∀ p ∈ ps2, p.pid = pid → p.leadUserId = l ∧ p.leadUserId ∈ p.members) := by
  refine ⟨?_, ?_, ?_⟩
  · intro users projects key name description leadUserId members newPid ps2 proj hok
    simp only [createProject] at hok
    split at hok
    · exact absurd hok (by simp)
    · split at hok
      · exact absurd hok (by simp)
      · split at hok
        · exact absurd hok (by simp)
        · split at hok
          · exact absurd hok (by simp)
          · simp only [Except.ok.injEq, Prod.mk.injEq] at hok
            rw [← hok.2]
            exact List.mem_dedup.mpr (List.mem_cons_self _ _)
  · intro users project add? remove? p2 hok hmem
    simp only [updateMembers] at hok
    split at hok
    · exact absurd hok (by simp)
    · split at hok
      · exact absurd hok (by simp)
      · rename_i hcount hguard
        simp only [Except.ok.injEq] at hok
        rw [← hok]
        refine ⟨rfl, ?_⟩
        have hnotin : project.leadUserId ∉ remove?.getD [] := by
          intro hin
          exact hguard (List.any_eq_true.mpr ⟨project.leadUserId, hin, by simp⟩)
        have hm1 : project.leadUserId ∈
            (if (add?.getD []).isEmpty then project.members
             else addToSetEach project.members (add?.getD [])) := by
          by_cases ha : (add?.getD []).isEmpty
          · simp only [if_pos ha]
            exact hmem
          · simp only [if_neg ha]
            exact mem_addToSetEach _ _ _ hmem
        by_cases hr : (remove?.getD []).isEmpty
        · simpa only [if_pos hr] using hm1
        · simp only [if_neg hr]
          exact mem_pullAll _ _ _ hm1 hnotin
  · intro users projects pid name? description? l ps2 hok p hp hpid
    simp only [updateProject] at hok
    split at hok
    · exact absurd hok (by simp)
    · split at hok
      · exact absurd hok (by simp)
      · simp only [Except.ok.injEq] at hok
        rw [← hok] at hp
        obtain ⟨q0, hq0, hgq0⟩ := List.mem_map.mp hp
        obtain ⟨q, hq, hfq⟩ := List.mem_map.mp hq0
        by_cases hqp : q.pid = pid
        · have hf : q0 = applyProjectSet q name? description? (some l) := by
            rw [← hfq]
            simp [hqp]
          have hq0pid : q0.pid = pid := by
            rw [hf]
            exact hqp
          have hg : p = addToSetMember q0 l := by
            rw [← hgq0]
            simp [hq0pid]
          have hlead0 : q0.leadUserId = l := by
            rw [hf]
            rfl
          obtain ⟨ha1, ha2, ha3⟩ := addToSetMember_spec q0 l
          have hleadp : p.leadUserId = l := by
            rw [hg, ha1, hlead0]
          refine ⟨hleadp, ?_⟩
          rw [hleadp, hg]
          exact ha3
        · exfalso
          have hf : q0 = q := by
            rw [← hfq]
            simp [hqp]
          have hg : p = q0 := by
            rw [← hgq0, hf]
            simp [hqp]
          exact hqp (by rw [← hpid, hg, hf])

/-- Developer user documents used by witnesses. -/
def userDev (n : Nat) : User := { uid := n, role := Role.developer, isActive := true }

theorem claim_C3_lead_in_members_witness :
    (({ pid := 5, key := "BT", name := "Bug Tracker", description := "",
        leadUserId := 1, members := [1, 2], nextIssueSeq := 1 } : Project).leadUserId
      ∈ ({ pid := 5, key := "BT", name := "Bug Tracker", description := "",
           leadUserId := 1, members := [1, 2], nextIssueSeq := 1 } : Project).members)
    ∧ (({ projBT with members := [1, 2] } : Project).leadUserId = projBT.leadUserId
       ∧ ({ projBT with members := [1, 2] } : Project).leadUserId
         ∈ ({ projBT with members := [1, 2] } : Project).members)
    ∧ (({ projBT with leadUserId := 2, members := [1, 2] } : Project).leadUserId = 2
       ∧ ({ projBT with leadUserId := 2, members := [1, 2] } : Project).leadUserId
         ∈ ({ projBT with leadUserId := 2, members := [1, 2] } : Project).members) :=
  ⟨claim_C3_lead_in_members.1 [userDev 1, userDev 2] [] "BT" "Bug Tracker" ""
     1 [2] 5
     [{ pid := 5, key := "BT", name := "Bug Tracker", description := "",
        leadUserId := 1, members := [1, 2], nextIssueSeq := 1 }]
     { pid := 5, key := "BT", name := "Bug Tracker", description := "",
       leadUserId := 1, members := [1, 2], nextIssueSeq := 1 }
     (by decide),
   claim_C3_lead_in_members.2.1 [userDev 1, userDev 2] projBT (some [2]) none
     { projBT with members := [1, 2] } (by decide) (by simp [projBT]),
   claim_C3_lead_in_members.2.2 [userDev 1, userDev 2] [projBT] 1 none none 2
     [{ projBT with leadUserId := 2, members := [1, 2] }] (by decide)
     { projBT with leadUserId := 2, members := [1, 2] } (by simp) rfl⟩

/-- Counting the documents whose unique id lies in a duplicate-free id
list stays strictly below the list length when some listed id has no
document. -/
theorem countDocuments_lt (users : List User) (ids : List Nat)
    (hnodupU : (users.map (fun u => u.uid)).Nodup) (hnodupI : ids.Nodup)
    (missing : Nat) (hmem : missing ∈ ids)
    (hmiss : ∀ u ∈ users, u.uid ≠ missing) :
    countDocuments users ids < ids.length := by
  unfold countDocuments
  rw [List.countP_eq_length_filter]
  have hsubl : ((users.filter (fun u => ids.contains u.uid)).map (fun u => u.uid)).Sublist
      (users.map (fun u => u.uid)) :=
    (List.filter_sublist users).map (fun u => u.uid)
  have h1 : ((users.filter (fun u => ids.contains u.uid)).map (fun u => u.uid)).Nodup :=
    hnodupU.sublist hsubl
  have hsub : (users.filter (fun u => ids.contains u.uid)).map (fun u => u.uid)
      ⊆ ids.erase missing := by
    intro x hx
    obtain ⟨u, hu, hux⟩ := List.mem_map.mp hx
    obtain ⟨huu, hcont⟩ := List.mem_filter.mp hu
    have hxids : x ∈ ids := by
      rw [← hux]
      simpa using hcont
    have hne : x ≠ missing := by
      rw [← hux]
      exact hmiss u huu
    exact (List.mem_erase_of_ne hne).mpr hxids
  have hlen := (List.subperm_of_subset h1 hsub).length_le
  rw [List.length_map] at hlen
  have herase : (ids.erase missing).length = ids.length - 1 :=
    List.length_erase_of_mem hmem
  have hpos : 0 < ids.length := List.length_pos.mpr (List.ne_nil_of_mem hmem)
  omega

/-- C4: an updateMembers call whose remove set contains the current lead,
or whose deduplicated add/remove union references an id with no user
document (detected by the single batched existence count), is rejected
as bad-input before the updateOne mutation is reached, so the member set
of the project is completely unchanged. -/
theorem claim_C4_updateMembers_rejection
    (users : List User) (project : Project) (add? remove? : Option (List Nat))
    (hnodupU : (users.map (fun u => u.uid)).Nodup)
    (htrigger :
      project.leadUserId ∈ remove?.getD []
      ∨ ∃ m ∈ ((add?.getD []) ++ (remove?.getD [])).dedup, ∀ u ∈ users, u.uid ≠ m) :
    updateMembers users project add? remove? = Except.error ApiError.badRequest
    ∧ runUpdateMembers users project add? remove? = project := by
  have h1 : updateMembers users project add? remove? = Except.error ApiError.badRequest := by
    simp only [updateMembers]
    by_cases hcount : countDocuments users ((add?.getD [] ++ remove?.getD []).dedup)
        ≠ ((add?.getD [] ++ remove?.getD []).dedup).length
    · simp only [if_pos hcount]
    · rcases htrigger with hlead | ⟨m, hm, hmiss⟩
      · simp only [if_neg hcount]
        have hany : (remove?.getD []).any (fun i => i == project.leadUserId) = true :=
          List.any_eq_true.mpr ⟨project.leadUserId, hlead, by simp⟩
        simp [hany]
      · exfalso
        have hlt := countDocuments_lt users ((add?.getD [] ++ remove?.getD []).dedup)
          hnodupU (List.nodup_dedup _) m hm hmiss
        have heq := not_ne_iff.mp hcount
        exact absurd heq (Nat.ne_of_lt hlt)
  exact ⟨h1, by simp [runUpdateMembers, h1]⟩

theorem claim_C4_updateMembers_rejection_witness :
    (updateMembers [userDev 1, userDev 2] projBT none (some [1])
      = Except.error ApiError.badRequest
     ∧ runUpdateMembers [userDev 1, userDev 2] projBT none (some [1]) = projBT)
    ∧ (updateMembers [userDev 1, userDev 2] projBT (some [7]) none
        = Except.error ApiError.badRequest
       ∧ runUpdateMembers [userDev 1, userDev 2] projBT (some [7]) none = projBT) :=
  ⟨claim_C4_updateMembers_rejection [userDev 1, userDev 2] projBT none (some [1])
     (by decide) (Or.inl (by decide)),
   claim_C4_updateMembers_rejection [userDev 1, userDev 2] projBT (some [7]) none
     (by decide) (Or.inr ⟨7, by decide, by decide⟩)⟩

theorem commentValidate_some (c t : Comment) (h : commentValidate c = some t) :
    t = { c with body := jsTrim c.body } := by
  simp only [commentValidate] at h
  split at h
  · simpa using h.symm
  · exact absurd h (by simp)

/-- C5: a successfully created top-level comment has an empty ancestors
list; a successfully created reply has its parents ancestors with the
parents id appended, and its issueId equals the parents issueId; a reply
whose parent belongs to a different issue is rejected as bad-input. -/
theorem claim_C5_comment_ancestors :
    (∀ (s : CState) (issue : Issue) (user : User) (body : String)
       (newCid now : Nat) (s2 : CState) (c : Comment),
      createComment s issue user body none newCid now = Except.ok (s2, c) →
      c.ancestors = [] ∧ c.parentId = none)
    ∧ (∀ (s : CState) (issue : Issue) (user : User) (body : String)
         (pcid newCid now : Nat) (parent : Comment) (s2 : CState) (c : Comment),
        s.comments.find? (fun x => x.cid == pcid) = some parent →
        createComment s issue user body (some pcid) newCid now = Except.ok (s2, c) →
        c.ancestors = parent.ancestors ++ [parent.cid] ∧ c.issueId = parent.issueId)
    ∧ (∀ (s : CState) (issue : Issue) (user : User) (body : String)
         (pcid newCid now : Nat) (parent : Comment),
        s.comments.find? (fun x => x.cid == pcid) = some parent →
        jsTrim body ≠ "" →
        parent.issueId ≠ issue.iid →
        createComment s issue user body (some pcid) newCid now
          = Except.error ApiError.badRequest) := by
  refine ⟨?_, ?_, ?_⟩
  · intro s issue user body newCid now s2 c hok
    simp only [createComment] at hok
    split at hok
    · exact absurd hok (by simp)
    · cases hval : commentValidate
        { cid := newCid, issueId := issue.iid, authorId := user.uid,
          body := body, parentId := none, ancestors := [],
          edited := false, deleted := false, createdAt := now } with
      | none => rw [hval] at hok; exact absurd hok (by simp)
      | some t =>
        rw [hval] at hok
        simp only [Except.ok.injEq, Prod.mk.injEq] at hok
        have hc : c = t := hok.2.symm
        have ht := commentValidate_some _ _ hval
        rw [hc, ht]
        exact ⟨rfl, rfl⟩
  · intro s issue user body pcid newCid now parent s2 c hfind hok
    simp only [createComment] at hok
    split at hok
    · exact absurd hok (by simp)
    · rw [hfind] at hok
      split at hok
      · exact absurd hok (by simp)
      · rename_i c2 hsame
        injection hsame with hpe
        subst hpe
        split at hok
        · exact absurd hok (by simp)
        · rename_i hne2
          cases hval : commentValidate
            { cid := newCid, issueId := issue.iid, authorId := user.uid,
              body := body, parentId := some pcid,
              ancestors := parent.ancestors ++ [parent.cid],
              edited := false, deleted := false, createdAt := now } with
          | none => rw [hval] at hok; exact absurd hok (by simp)
          | some t =>
            rw [hval] at hok
            simp only [Except.ok.injEq, Prod.mk.injEq] at hok
            have hc : c = t := hok.2.symm
            have ht := commentValidate_some _ _ hval
            have hiss : parent.issueId = issue.iid := not_ne_iff.mp hne2
            rw [hc, ht]
            exact ⟨rfl, hiss.symm⟩
  · intro s issue user body pcid newCid now parent hfind hbody hne
    simp [createComment, hbody, hfind, hne]

/-- Concrete documents used by the comment witnesses. -/
def issue1 : Issue := { iid := 1, projectId := 1, key := some ("BT-1"), commentCount := 0 }

def cParent : Comment :=
  { cid := 10, issueId := 1, authorId := 1, body := "root", parentId := none,
    ancestors := [], edited := false, deleted := false, createdAt := 1 }

def cOther : Comment :=
  { cid := 20, issueId := 2, authorId := 1, body := "elsewhere", parentId := none,
    ancestors := [], edited := false, deleted := false, createdAt := 1 }

def s0 : CState := { issues := [issue1], comments := [cParent, cOther] }

theorem claim_C5_comment_ancestors_witness :
    (({ cid := 11, issueId := 1, authorId := 1, body := "hi", parentId := none,
        ancestors := [], edited := false, deleted := false,
        createdAt := 5 } : Comment).ancestors = []
      ∧ ({ cid := 11, issueId := 1, authorId := 1, body := "hi", parentId := none,
           ancestors := [], edited := false, deleted := false,
           createdAt := 5 } : Comment).parentId = none)
    ∧ (({ cid := 12, issueId := 1, authorId := 1, body := "re", parentId := some 10,
          ancestors := [10], edited := false, deleted := false,
          createdAt := 6 } : Comment).ancestors = cParent.ancestors ++ [cParent.cid]
       ∧ ({ cid := 12, issueId := 1, authorId := 1, body := "re", parentId := some 10,
            ancestors := [10], edited := false, deleted := false,
            createdAt := 6 } : Comment).issueId = cParent.issueId)
    ∧ createComment s0 issue1 (userDev 1) "re" (some 20) 13 7
        = Except.error ApiError.badRequest :=
  ⟨claim_C5_comment_ancestors.1 s0 issue1 (userDev 1) "hi" 11 5
     { issues := [{ iid := 1, projectId := 1, key := some ("BT-1"), commentCount := 1 }],
       comments := [cParent, cOther,
         { cid := 11, issueId := 1, authorId := 1, body := "hi", parentId := none,
           ancestors := [], edited := false, deleted := false, createdAt := 5 }] }
     { cid := 11, issueId := 1, authorId := 1, body := "hi", parentId := none,
       ancestors := [], edited := false, deleted := false, createdAt := 5 }
     (by decide),
   claim_C5_comment_ancestors.2.1 s0 issue1 (userDev 1) "re" 10 12 6 cParent
     { issues := [{ iid := 1, projectId := 1, key := some ("BT-1"), commentCount := 1 }],
       comments := [cParent, cOther,
         { cid := 12, issueId := 1, authorId := 1, body := "re", parentId := some 10,
           ancestors := [10], edited := false, deleted := false, createdAt := 6 }] }
     { cid := 12, issueId := 1, authorId := 1, body := "re", parentId := some 10,
       ancestors := [10], edited := false, deleted := false, createdAt := 6 }
     (by decide) (by decide),
   claim_C5_comment_ancestors.2.2 s0 issue1 (userDev 1) "re" 20 13 7 cOther
     (by decide) (by decide) (by decide)⟩

theorem countP_replaceFirst (q : Comment → Bool) (c2 : Comment) :
    ∀ (l : List Comment) (c : Comment),
      l.find? (fun x => x.cid == c.cid) = some c →
      c2.cid = c.cid →
      (replaceFirstComment l c2).countP q + (if q c = true then 1 else 0)
        = l.countP q + (if q c2 = true then 1 else 0) := by
  intro l
  induction l with
  | nil =>
    intro c hf _
    simp at hf
  | cons x xs ih =>
    intro c hf hcid
    by_cases hx : (x.cid == c.cid) = true
    · have hcx : x = c := by
        have hsome : some x = some c := by
          rw [← hf]
          simp [List.find?_cons, hx]
        exact Option.some.inj hsome
      have hx2 : (x.cid == c2.cid) = true := by
        rw [hcid]
        exact hx
      have hrep : replaceFirstComment (x :: xs) c2 = c2 :: xs := by
        unfold replaceFirstComment
        rw [if_pos hx2]
      rw [hrep]
      subst hcx
      simp only [List.countP_cons]
      omega
    · have hbx : (x.cid == c.cid) = false := by simpa using hx
      have hf2 : xs.find? (fun y => y.cid == c.cid) = some c := by
        have h3 := hf
        simp only [List.find?_cons, hbx] at h3
        exact h3
      have hx2 : ¬ ((x.cid == c2.cid) = true) := by
        rw [hcid]
        exact hx
      have hrep : replaceFirstComment (x :: xs) c2 = x :: replaceFirstComment xs c2 := by
        rw [replaceFirstComment]
        rw [if_neg hx2]
      rw [hrep]
      simp only [List.countP_cons]
      have := ih c hf2 hcid
      omega

theorem createComment_ok_shape (s : CState) (issue : Issue) (user : User)
    (body : String) (parentId : Option Nat) (newCid now : Nat)
    (s2 : CState) (c : Comment)
    (h : createComment s issue user body parentId newCid now = Except.ok (s2, c)) :
    s2.issues = incCommentCount s.issues issue.iid 1
    ∧ s2.comments = s.comments ++ [c]
    ∧ c.issueId = issue.iid ∧ c.deleted = false := by
  simp only [createComment] at h
  split at h
  · exact absurd h (by simp)
  · split at h
    · -- top-level comment
      cases hval : commentValidate
          { cid := newCid, issueId := issue.iid, authorId := user.uid,
            body := body, parentId := none, ancestors := [],
            edited := false, deleted := false, createdAt := now } with
      | none => rw [hval] at h; exact absurd h (by simp)
      | some t =>
        rw [hval] at h
        simp only [Except.ok.injEq, Prod.mk.injEq] at h
        obtain ⟨hs2, hc⟩ := h
        have ht := commentValidate_some _ _ hval
        subst hc
        rw [← hs2]
        refine ⟨rfl, rfl, ?_, ?_⟩
        · rw [ht]
        · rw [ht]
    · -- reply
      rename_i pcid
      split at h
      · exact absurd h (by simp)
      · rename_i parent hsame
        split at h
        · exact absurd h (by simp)
        · cases hval : commentValidate
              { cid := newCid, issueId := issue.iid, authorId := user.uid,
                body := body, parentId := some pcid,
                ancestors := parent.ancestors ++ [parent.cid],
                edited := false, deleted := false, createdAt := now } with
          | none => rw [hval] at h; exact absurd h (by simp)
          | some t =>
            rw [hval] at h
            simp only [Except.ok.injEq, Prod.mk.injEq] at h
            obtain ⟨hs2, hc⟩ := h
            have ht := commentValidate_some _ _ hval
            subst hc
            rw [← hs2]
            refine ⟨rfl, rfl, ?_, ?_⟩
            · rw [ht]
            · rw [ht]

theorem countP_append_single (l : List Comment) (c : Comment) (q : Comment → Bool) :
    (l ++ [c]).countP q = l.countP q + (if q c = true then 1 else 0) := by
  rw [List.countP_append]
  simp [List.countP_cons]

theorem createChain_preserves (users : List User) (projects : List Project)
    (s : CState) (issueId userId : Nat) (body : String) (parentId : Option Nat)
    (newCid now : Nat) (s2 : CState) (c : Comment)
    (h : createCommentChain users projects s issueId userId body parentId newCid now
      = Except.ok (s2, c))
    (hinv : CountInv s) : CountInv s2 := by
  simp only [createCommentChain] at h
  cases hu : loadCurrentUser users userId with
  | error e => rw [hu] at h; exact absurd h (by simp)
  | ok user =>
    rw [hu] at h
    dsimp only at h
    cases hl : loadIssue projects s.issues issueId with
    | error e => rw [hl] at h; exact absurd h (by simp)
    | ok ip =>
      rw [hl] at h
      obtain ⟨issue, project⟩ := ip
      dsimp only at h
      cases hr : requireProjectMemberOrAdmin (some user) (some project) with
      | error e => rw [hr] at h; exact absurd h (by simp)
      | ok uu =>
        rw [hr] at h
        dsimp only at h
        obtain ⟨hiss, hcom, hcid, hdel⟩ := createComment_ok_shape _ _ _ _ _ _ _ _ _ h
        intro i2 hi2
        rw [hiss] at hi2
        simp only [incCommentCount, List.mem_map] at hi2
        obtain ⟨i, hi, hdef⟩ := hi2
        have hbase := hinv i hi
        unfold liveCount at hbase ⊢
        rw [hcom]
        by_cases hii : i.iid = issue.iid
        · have hdef2 : i2 = { i with commentCount := i.commentCount + 1 } := by
            rw [← hdef]
            simp [hii]
          rw [hdef2]
          have hq : ((fun x => x.issueId == i.iid && !x.deleted) c) = true := by
            simp [hcid, hdel, hii]
          have happ := countP_append_single s.comments c
            (fun x => x.issueId == i.iid && !x.deleted)
          simp only [hq, if_pos] at happ
          simp only []
          rw [happ]
          push_cast
          omega
        · have hdef2 : i2 = i := by
            rw [← hdef]
            simp [hii]
          rw [hdef2]
          have hq : ((fun x => x.issueId == i.iid && !x.deleted) c) = false := by
            have : ¬ (c.issueId = i.iid) := by
              rw [hcid]
              exact fun hx => hii hx.symm
            simp [this]
          have happ2 : (s.comments ++ [c]).countP (fun x => x.issueId == i.iid && !x.deleted)
              = s.comments.countP (fun x => x.issueId == i.iid && !x.deleted) := by
            rw [countP_append_single]
            simp [hq]
          rw [happ2]
          exact hbase

theorem loadComment_ok_shape (projects : List Project) (s : CState) (commentId : Nat)
    (c : Comment) (issue : Issue) (project : Project)
    (h : loadComment projects s commentId = Except.ok (c, issue, project)) :
    s.comments.find? (fun x => x.cid == commentId) = some c
    ∧ s.issues.find? (fun i => i.iid == c.issueId) = some issue
    ∧ issue.iid = c.issueId ∧ c.cid = commentId := by
  cases hf : s.comments.find? (fun x => x.cid == commentId) with
  | none => simp [loadComment, hf] at h
  | some c0 =>
    cases hi : s.issues.find? (fun i => i.iid == c0.issueId) with
    | none => simp [loadComment, hf, hi] at h
    | some i0 =>
      cases hp : projects.find? (fun p => p.pid == i0.projectId) with
      | none => simp [loadComment, hf, hi, hp] at h
      | some p0 =>
        have hred : loadComment projects s commentId = Except.ok (c0, i0, p0) := by
          simp [loadComment, hf, hi, hp]
        rw [hred] at h
        simp only [Except.ok.injEq, Prod.mk.injEq] at h
        obtain ⟨hc, hi2, hp2⟩ := h
        refine ⟨?_, ?_, ?_, ?_⟩
        · rw [← hc]
        · rw [← hc, ← hi2]
          exact hi
        · rw [← hc, ← hi2]
          have hbeq := List.find?_some hi
          simpa using hbeq
        · rw [← hc]
          have hbeq := List.find?_some hf
          simpa using hbeq

theorem deleteChain_preserves (projects : List Project) (s : CState) (user : User)
    (commentId : Nat) (s2 : CState)
    (h : deleteCommentChain projects s user commentId = Except.ok s2)
    (hinv : CountInv s) : CountInv s2 := by
  simp only [deleteCommentChain] at h
  cases hl : loadComment projects s commentId with
  | error e => rw [hl] at h; exact absurd h (by simp)
  | ok cip =>
    rw [hl] at h
    obtain ⟨c0, issue, project⟩ := cip
    dsimp only at h
    cases hr : requireProjectMemberOrAdmin (some user) (some project) with
    | error e => rw [hr] at h; exact absurd h (by simp)
    | ok uu =>
      rw [hr] at h
      dsimp only at h
      obtain ⟨hfind, hifind, hiid, hc0cid⟩ :=
        loadComment_ok_shape projects s commentId c0 issue project hl
      simp only [deleteComment, hfind] at h
      split at h
      · split at h
        · rename_i hdel
          have hs : s = s2 := by simpa using h
          rw [← hs]
          exact hinv
        · rename_i hcan hndel
          have h0 : jsTrim "" = "" := rfl
          have hval : commentValidate { c0 with deleted := true, body := "" }
              = some { c0 with deleted := true, body := "" } := by
            simp [commentValidate, h0]
          rw [hval] at h
          dsimp only at h
          have hs2 : s2 = { issues := incCommentCount s.issues issue.iid (-1),
                            comments := replaceFirstComment s.comments
                              { c0 with deleted := true, body := "" } } := by
            simpa using h.symm
          rw [hs2]
          intro i2 hi2
          simp only [incCommentCount, List.mem_map] at hi2
          obtain ⟨i, hi, hdef⟩ := hi2
          have hbase := hinv i hi
          unfold liveCount at hbase ⊢
          have hfind2 : s.comments.find? (fun x => x.cid == c0.cid) = some c0 := by
            rw [hc0cid]
            exact hfind
          have hdel0 : c0.deleted = false := by
            cases hdd : c0.deleted with
            | false => rfl
            | true => exact absurd hdd hndel
          by_cases hii : i.iid = issue.iid
          · have hdef2 : i2 = { i with commentCount := i.commentCount + (-1) } := by
              rw [← hdef]
              simp [hii]
            rw [hdef2]
            have hq0 : ((fun x => x.issueId == i.iid && !x.deleted) c0) = true := by
              simp [← hiid, hii, hdel0]
            have hq2 : ((fun x => x.issueId == i.iid && !x.deleted)
                { c0 with deleted := true, body := "" }) = false := by
              simp
            have hcount := countP_replaceFirst
              (fun x => x.issueId == i.iid && !x.deleted)
              { c0 with deleted := true, body := "" } s.comments c0 hfind2 rfl
            rw [hq0, hq2] at hcount
            simp at hcount
            dsimp only
            omega
          · have hdef2 : i2 = i := by
              rw [← hdef]
              simp [hii]
            rw [hdef2]
            have hq0 : ((fun x => x.issueId == i.iid && !x.deleted) c0) = false := by
              have hne : ¬ (c0.issueId = i.iid) := by
                rw [← hiid]
                exact fun hx => hii hx.symm
              simp [hne]
            have hq2 : ((fun x => x.issueId == i.iid && !x.deleted)
                { c0 with deleted := true, body := "" }) = false := by
              simp
            have hcount := countP_replaceFirst
              (fun x => x.issueId == i.iid && !x.deleted)
              { c0 with deleted := true, body := "" } s.comments c0 hfind2 rfl
            rw [hq0, hq2] at hcount
            simp at hcount
            dsimp only
            omega
      · exact absurd h (by simp)

theorem runOps_preserves (users : List User) (projects : List Project) :
    ∀ (ops : List TOp) (s : CState),
      CountInv s → CountInv (runOps users projects s ops) := by
  intro ops
  induction ops with
  | nil => intro s h; exact h
  | cons op rest ih =>
    intro s h
    apply ih
    cases op with
    | create userId issueId body parentId newCid now =>
      dsimp only [stepOp]
      cases hc : createCommentChain users projects s issueId userId body parentId newCid now with
      | error e => exact h
      | ok pr =>
        obtain ⟨s2, c⟩ := pr
        exact createChain_preserves users projects s issueId userId body parentId
          newCid now s2 c hc h
    | softDelete userId commentId =>
      dsimp only [stepOp]
      cases hu : loadCurrentUser users userId with
      | error e => dsimp only; exact h
      | ok user =>
        dsimp only
        cases hd : deleteCommentChain projects s user commentId with
        | error e => dsimp only; exact h
        | ok s2 =>
          dsimp only
          exact deleteChain_preserves projects s user commentId s2 hd h

/-- C6: deleteComment is idempotent and conserves the counter.  Deleting
an already-deleted comment is a no-op success that changes nothing; the
first deletion clears the body, sets deleted, and decrements the parent
issue commentCount by exactly one; and over any sequence of create and
soft-delete requests every issue counts exactly its live comments, which
equals creations minus first-time soft deletions for that issue (a
repeated soft delete never changes the counter again). -/
theorem claim_C6_soft_delete_idempotent_counter :
    (∀ (s : CState) (user? : Option User) (project? : Option Project)
       (issue : Issue) (commentId : Nat) (c : Comment),
      s.comments.find? (fun x => x.cid == commentId) = some c →
      canEditOrModerate user? project? (some c) = true →
      c.deleted = true →
      deleteComment s user? project? issue commentId = Except.ok s)
    ∧ (∀ (s : CState) (user? : Option User) (project? : Option Project)
         (issue : Issue) (commentId : Nat) (c : Comment),
        s.comments.find? (fun x => x.cid == commentId) = some c →
        canEditOrModerate user? project? (some c) = true →
        c.deleted = false →
        deleteComment s user? project? issue commentId
          = Except.ok { issues := incCommentCount s.issues issue.iid (-1),
                        comments := replaceFirstComment s.comments
                          { c with deleted := true, body := "" } })
    ∧ (∀ (users : List User) (projects : List Project) (ops : List TOp) (s : CState),
        CountInv s → CountInv (runOps users projects s ops)) := by
  refine ⟨?_, ?_, ?_⟩
  · intro s user? project? issue commentId c hfind hcan hdel
    simp [deleteComment, hfind, hcan, hdel]
  · intro s user? project? issue commentId c hfind hcan hdel
    have h0 : jsTrim "" = "" := rfl
    have hval : commentValidate { c with deleted := true, body := "" }
        = some { c with deleted := true, body := "" } := by
      simp [commentValidate, h0]
    simp [deleteComment, hfind, hcan, hdel, hval]
  · intro users projects ops s hinv
    exact runOps_preserves users projects ops s hinv

/-- An already-soft-deleted comment and a state holding it, for the C6
witness. -/
def cDel : Comment :=
  { cid := 30, issueId := 1, authorId := 1, body := "", parentId := none,
    ancestors := [], edited := false, deleted := true, createdAt := 2 }

def sDel : CState := { issues := [issue1], comments := [cParent, cDel] }

theorem claim_C6_soft_delete_idempotent_counter_witness :
    (deleteComment sDel (some (userDev 1)) (some projBT) issue1 30 = Except.ok sDel)
    ∧ (deleteComment s0 (some (userDev 1)) (some projBT) issue1 10
        = Except.ok { issues := incCommentCount s0.issues issue1.iid (-1),
                      comments := replaceFirstComment s0.comments
                        { cParent with deleted := true, body := "" } })
    ∧ CountInv (runOps [userDev 1] [projBT]
        { issues := [issue1], comments := [] }
        [TOp.create 1 1 "first" none 50 9, TOp.softDelete 1 50, TOp.softDelete 1 50]) :=
  ⟨claim_C6_soft_delete_idempotent_counter.1 sDel (some (userDev 1)) (some projBT)
     issue1 30 cDel (by decide) (by decide) (by decide),
   claim_C6_soft_delete_idempotent_counter.2.1 s0 (some (userDev 1)) (some projBT)
     issue1 10 cParent (by decide) (by decide) (by decide),
   claim_C6_soft_delete_idempotent_counter.2.2 [userDev 1] [projBT]
     [TOp.create 1 1 "first" none 50 9, TOp.softDelete 1 50, TOp.softDelete 1 50]
     { issues := [issue1], comments := [] }
     (by
       intro i hi
       have he : i = issue1 := by simpa using hi
       rw [he]
       rfl)⟩

/-- Spelled-out allow condition of requireProjectMemberOrAdmin. -/
def memberOrAdminP (user : User) (project : Project) : Prop :=
  user.role = Role.admin ∨ project.leadUserId = user.uid
  ∨ user.uid ∈ project.members

/-- The permission the PATCH/DELETE comment route chain actually grants:
the membership gate and the canEditOrModerate check combined. -/
def canModerateFull (user : User) (project : Project) (c : Comment) : Prop :=
  user.role = Role.admin ∨ project.leadUserId = user.uid
  ∨ (user.uid ∈ project.members ∧ c.authorId = user.uid)

theorem require_member_pos (user : User) (project : Project)
    (h : memberOrAdminP user project) :
    requireProjectMemberOrAdmin (some user) (some project) = Except.ok () := by
  simp only [requireProjectMemberOrAdmin]
  rw [if_pos]
  rcases h with h | h | h
  · exact Or.inl h
  · exact Or.inr (Or.inl h)
  · exact Or.inr (Or.inr (List.any_eq_true.mpr ⟨user.uid, h, by simp⟩))

theorem require_member_neg (user : User) (project : Project)
    (h : ¬ memberOrAdminP user project) :
    requireProjectMemberOrAdmin (some user) (some project)
      = Except.error ApiError.forbidden := by
  simp only [requireProjectMemberOrAdmin]
  rw [if_neg]
  intro hc
  apply h
  rcases hc with hc | hc | hc
  · exact Or.inl hc
  · exact Or.inr (Or.inl hc)
  · obtain ⟨x, hx, hbeq⟩ := List.any_eq_true.mp hc
    have : x = user.uid := by simpa using hbeq
    exact Or.inr (Or.inr (this ▸ hx))

theorem canEditOrModerate_iff (user : User) (project : Project) (c : Comment) :
    canEditOrModerate (some user) (some project) (some c) = true ↔
      (user.role = Role.admin ∨ project.leadUserId = user.uid
       ∨ c.authorId = user.uid) := by
  by_cases ha : user.role = Role.admin
  · simp [canEditOrModerate, ha]
  · by_cases hl : project.leadUserId = user.uid
    · simp [canEditOrModerate, ha, hl]
    · simp [canEditOrModerate, ha, hl]

theorem updateComment_not_forbidden (s : CState) (user? : Option User)
    (project? : Option Project) (commentId : Nat) (body? : Option String)
    (c : Comment)
    (hfind : s.comments.find? (fun x => x.cid == commentId) = some c)
    (hcan : canEditOrModerate user? project? (some c) = true) :
    updateComment s user? project? commentId body? ≠ Except.error ApiError.forbidden := by
  cases body? with
  | none =>
    intro heq
    simp [updateComment, hfind, hcan] at heq
  | some body =>
    intro heq
    by_cases hb : jsTrim body = ""
    · simp [updateComment, hfind, hcan, hb] at heq
    · cases hv : commentValidate { c with body := body, edited := true } with
      | none => simp [updateComment, hfind, hcan, hb, hv] at heq
      | some t => simp [updateComment, hfind, hcan, hb, hv] at heq

theorem deleteComment_not_forbidden (s : CState) (user? : Option User)
    (project? : Option Project) (issue : Issue) (commentId : Nat) (c : Comment)
    (hfind : s.comments.find? (fun x => x.cid == commentId) = some c)
    (hcan : canEditOrModerate user? project? (some c) = true) :
    deleteComment s user? project? issue commentId ≠ Except.error ApiError.forbidden := by
  intro heq
  by_cases hdel : c.deleted = true
  · simp [deleteComment, hfind, hcan, hdel] at heq
  · cases hv : commentValidate { c with deleted := true, body := "" } with
    | none => simp [deleteComment, hfind, hcan, hdel, hv] at heq
    | some t => simp [deleteComment, hfind, hcan, hdel, hv] at heq

theorem updateComment_forbidden_of (s : CState) (user? : Option User)
    (project? : Option Project) (commentId : Nat) (body? : Option String)
    (c : Comment)
    (hfind : s.comments.find? (fun x => x.cid == commentId) = some c)
    (hcan : canEditOrModerate user? project? (some c) = false) :
    updateComment s user? project? commentId body?
      = Except.error ApiError.forbidden := by
  simp [updateComment, hfind, hcan]

theorem deleteComment_forbidden_of (s : CState) (user? : Option User)
    (project? : Option Project) (issue : Issue) (commentId : Nat) (c : Comment)
    (hfind : s.comments.find? (fun x => x.cid == commentId) = some c)
    (hcan : canEditOrModerate user? project? (some c) = false) :
    deleteComment s user? project? issue commentId
      = Except.error ApiError.forbidden := by
  simp [deleteComment, hfind, hcan]

/-- C7 (amended): through the PATCH/DELETE /comments/:id route chains,
for a resolved active caller and a loadable comment, updateComment and
deleteComment are free of forbidden exactly when the caller is an admin,
the project lead, or a project member who authored the comment; every
other caller receives forbidden (and an error response performs no
mutation, so the comment is unchanged).  The original claim omitted the
membership gate requireProjectMemberOrAdmin that runs before the
controller, which also forbids a comment author who is no longer a
project member. -/
theorem claim_C7_comment_moderation_amended
    (projects : List Project) (s : CState) (user : User) (commentId : Nat)
    (body? : Option String) (c : Comment) (issue : Issue) (project : Project)
    (hload : loadComment projects s commentId = Except.ok (c, issue, project))
    (hactive : user.isActive = true) :
    (¬ canModerateFull user project c →
      updateCommentChain projects s user commentId body?
        = Except.error ApiError.forbidden
      ∧ deleteCommentChain projects s user commentId
        = Except.error ApiError.forbidden)
    ∧ (canModerateFull user project c →
      updateCommentChain projects s user commentId body?
        ≠ Except.error ApiError.forbidden
      ∧ deleteCommentChain projects s user commentId
        ≠ Except.error ApiError.forbidden) := by
  obtain ⟨hfind, hifind, hiid, hcid⟩ :=
    loadComment_ok_shape projects s commentId c issue project hload
  by_cases hmem : memberOrAdminP user project
  · have hreq := require_member_pos user project hmem
    have hupd : updateCommentChain projects s user commentId body?
        = updateComment s (some user) (some project) commentId body? := by
      simp [updateCommentChain, hload, hreq]
    have hdel : deleteCommentChain projects s user commentId
        = deleteComment s (some user) (some project) issue commentId := by
      simp [deleteCommentChain, hload, hreq]
    by_cases hedit : canEditOrModerate (some user) (some project) (some c) = true
    · constructor
      · intro hnf
        exfalso
        apply hnf
        rcases (canEditOrModerate_iff user project c).mp hedit with ha | hl | hau
        · exact Or.inl ha
        · exact Or.inr (Or.inl hl)
        · rcases hmem with hm | hm | hm
          · exact Or.inl hm
          · exact Or.inr (Or.inl hm)
          · exact Or.inr (Or.inr ⟨hm, hau⟩)
      · intro hfull
        refine ⟨?_, ?_⟩
        · rw [hupd]
          exact updateComment_not_forbidden s (some user) (some project)
            commentId body? c hfind hedit
        · rw [hdel]
          exact deleteComment_not_forbidden s (some user) (some project)
            issue commentId c hfind hedit
    · have hedit2 : canEditOrModerate (some user) (some project) (some c) = false := by
        cases hx : canEditOrModerate (some user) (some project) (some c) with
        | false => rfl
        | true => exact absurd hx hedit
      constructor
      · intro hnf
        refine ⟨?_, ?_⟩
        · rw [hupd]
          exact updateComment_forbidden_of s (some user) (some project)
            commentId body? c hfind hedit2
        · rw [hdel]
          exact deleteComment_forbidden_of s (some user) (some project)
            issue commentId c hfind hedit2
      · intro hfull
        exfalso
        apply hedit
        apply (canEditOrModerate_iff user project c).mpr
        rcases hfull with ha | hl | ⟨hm, hau⟩
        · exact Or.inl ha
        · exact Or.inr (Or.inl hl)
        · exact Or.inr (Or.inr hau)
  · have hreq := require_member_neg user project hmem
    constructor
    · intro hnf
      constructor
      · simp [updateCommentChain, hload, hreq]
      · simp [deleteCommentChain, hload, hreq]
    · intro hfull
      exfalso
      apply hmem
      rcases hfull with ha | hl | ⟨hm, hau⟩
      · exact Or.inl ha
      · exact Or.inr (Or.inl hl)
      · exact Or.inr (Or.inr hm)

/-- A comment authored by user 3, who is not a member of projBT. -/
def cBy3 : Comment :=
  { cid := 40, issueId := 1, authorId := 3, body := "mine", parentId := none,
    ancestors := [], edited := false, deleted := false, createdAt := 3 }

def sBy3 : CState := { issues := [issue1], comments := [cBy3] }

/-- C7 counterexample: an active developer who is the author of the
comment but no longer a project member is rejected with forbidden by
both route chains, although the claim says author implies permitted. -/
theorem claim_C7_comment_moderation_counterexample :
    (userDev 3).isActive = true
    ∧ cBy3.authorId = (userDev 3).uid
    ∧ ¬ ((userDev 3).uid ∈ projBT.members)
    ∧ updateCommentChain [projBT] sBy3 (userDev 3) 40 (some ("x"))
        = Except.error ApiError.forbidden
    ∧ deleteCommentChain [projBT] sBy3 (userDev 3) 40
        = Except.error ApiError.forbidden := by
  refine ⟨rfl, rfl, by decide, ?_, ?_⟩
  · decide
  · decide

theorem claim_C7_comment_moderation_amended_witness :
    updateCommentChain [projBT] sBy3 (userDev 3) 40 (some ("x"))
      = Except.error ApiError.forbidden
    ∧ deleteCommentChain [projBT] sBy3 (userDev 3) 40
      = Except.error ApiError.forbidden :=
  (claim_C7_comment_moderation_amended [projBT] sBy3 (userDev 3) 40 (some ("x"))
    cBy3 issue1 projBT (by decide) rfl).1
    (by
      unfold canModerateFull
      decide)

/-- C8 (amended): the middleware decision gates requireProjectMemberOrAdmin
and requireProjectLeadOrAdmin do signal a missing user or project as the
distinct context-missing condition (HTTP 500), never the generic
forbidden; but canEditOrModerate instead swallows a missing user,
project or comment into the same false that a rights-lacking caller
receives, so updateComment and deleteComment answer the generic
forbidden on missing context rather than a distinct server-side defect.
The original claim asserted the distinct condition for all three
decision functions. -/
theorem claim_C8_context_missing_amended :
    (∀ project? : Option Project,
      requireProjectMemberOrAdmin none project? = Except.error ApiError.serverError)
    ∧ (∀ user : User,
        requireProjectMemberOrAdmin (some user) none
          = Except.error ApiError.serverError)
    ∧ (∀ project? : Option Project,
        requireProjectLeadOrAdmin none project? = Except.error ApiError.serverError)
    ∧ (∀ user : User,
        requireProjectLeadOrAdmin (some user) none
          = Except.error ApiError.serverError)
    ∧ ApiError.serverError ≠ ApiError.forbidden
    ∧ (∀ (project? : Option Project) (comment? : Option Comment),
        canEditOrModerate none project? comment? = false)
    ∧ (∀ (user? : Option User) (comment? : Option Comment),
        canEditOrModerate user? none comment? = false)
    ∧ (∀ (s : CState) (project? : Option Project) (commentId : Nat)
         (body? : Option String) (c : Comment),
        s.comments.find? (fun x => x.cid == commentId) = some c →
        updateComment s none project? commentId body?
          = Except.error ApiError.forbidden) := by
  refine ⟨?_, ?_, ?_, ?_, by decide, ?_, ?_, ?_⟩
  · intro project?
    cases project? <;> rfl
  · intro user
    rfl
  · intro project?
    cases project? <;> rfl
  · intro user
    rfl
  · intro project? comment?
    cases project? <;> cases comment? <;> rfl
  · intro user? comment?
    cases user? <;> cases comment? <;> rfl
  · intro s project? commentId body? c hfind
    have hcan : canEditOrModerate none project? (some c) = false := by
      cases project? <;> rfl
    exact updateComment_forbidden_of s none project? commentId body? c hfind hcan

/-- C8 counterexample: invoking canEditOrModerate with a missing user
yields the same false, and through updateComment and deleteComment the
same generic forbidden response, that a resolved caller who merely lacks
rights receives — not a distinct context-missing condition. -/
theorem claim_C8_context_missing_counterexample :
    canEditOrModerate none (some projBT) (some cBy3) = false
    ∧ updateComment sBy3 none (some projBT) 40 (some ("x"))
        = Except.error ApiError.forbidden
    ∧ deleteComment sBy3 none (some projBT) issue1 40
        = Except.error ApiError.forbidden
    ∧ updateComment sBy3 (some (userDev 2)) (some projBT) 40 (some ("x"))
        = Except.error ApiError.forbidden
    ∧ canEditOrModerate (some (userDev 2)) (some projBT) (some cBy3) = false := by
  refine ⟨rfl, ?_, ?_, ?_, by decide⟩ <;> decide

theorem claim_C8_context_missing_amended_witness :
    updateComment sBy3 none (some projBT) 40 (some ("x"))
      = Except.error ApiError.forbidden :=
  claim_C8_context_missing_amended.2.2.2.2.2.2.2 sBy3 (some projBT) 40
    (some ("x")) cBy3 (by decide)

theorem commentLe_total (a b : Comment) : (commentLe a b || commentLe b a) = true := by
  simp only [commentLe, Bool.or_eq_true, decide_eq_true_eq]
  omega

theorem commentLe_trans (a b c : Comment) (h1 : commentLe a b = true)
    (h2 : commentLe b c = true) : commentLe a c = true := by
  simp only [commentLe, decide_eq_true_eq] at h1 h2 ⊢
  omega

/-- Properties of the sort/skip/limit window shared by both listing
endpoints. -/
theorem listWindow_spec (l : List Comment) (p : Comment → Bool) (skip lim : Nat) :
    (∃ full : List Comment,
      full.Perm (l.filter p)
      ∧ full.Pairwise (fun a b => commentLe a b = true)
      ∧ (((l.filter p).mergeSort commentLe).drop skip).take lim
        = (full.drop skip).take lim)
    ∧ (∀ x ∈ (((l.filter p).mergeSort commentLe).drop skip).take lim, p x = true)
    ∧ ((((l.filter p).mergeSort commentLe).drop skip).take lim).Pairwise
        (fun a b => commentLe a b = true)
    ∧ ((((l.filter p).mergeSort commentLe).drop skip).take lim).length ≤ lim := by
  have hperm : ((l.filter p).mergeSort commentLe).Perm (l.filter p) :=
    List.mergeSort_perm (l.filter p) commentLe
  have hsorted : ((l.filter p).mergeSort commentLe).Pairwise
      (fun a b => commentLe a b = true) :=
    List.sorted_mergeSort (fun a b c => commentLe_trans a b c)
      (fun a b => commentLe_total a b) (l.filter p)
  have hsub : ((((l.filter p).mergeSort commentLe).drop skip).take lim).Sublist
      ((l.filter p).mergeSort commentLe) :=
    (List.take_sublist _ _).trans (List.drop_sublist _ _)
  refine ⟨⟨(l.filter p).mergeSort commentLe, hperm, hsorted, rfl⟩, ?_, ?_, ?_⟩
  · intro x hx
    have hx2 : x ∈ l.filter p := hperm.mem_iff.mp (hsub.subset hx)
    exact (List.mem_filter.mp hx2).2
  · exact hsorted.sublist hsub
  · calc ((((l.filter p).mergeSort commentLe).drop skip).take lim).length
        ≤ lim := by
          rw [List.length_take]
          exact min_le_left _ _

/-- C9: listIssueComments returns exactly the issue comments with null
parentId and deleted false, as a skip/limit window over the unique
(createdAt, id)-ascending ordering, with the effective limit capped at
100; listReplies returns only direct children of the parent (exact
parentId match) under the same ordering with the cap at 200. -/
theorem claim_C9_comment_listing :
    (∀ (s : CState) (issueId : Nat) (limit? skip? : Option Nat) (issue : Issue)
       (r : List Comment),
      s.issues.find? (fun i => i.iid == issueId) = some issue →
      listIssueComments s issueId limit? skip? = Except.ok r →
      (∃ full : List Comment,
        full.Perm (s.comments.filter (fun c =>
          c.issueId == issue.iid && c.parentId == none && !c.deleted))
        ∧ full.Pairwise (fun a b => commentLe a b = true)
        ∧ r = (full.drop (skip?.getD 0)).take (min (limit?.getD 20) 100))
      ∧ (∀ x ∈ r, x.issueId = issue.iid ∧ x.parentId = none ∧ x.deleted = false)
      ∧ r.Pairwise (fun a b => commentLe a b = true)
      ∧ r.length ≤ min (limit?.getD 20) 100
      ∧ min (limit?.getD 20) 100 ≤ 100)
    ∧ (∀ (s : CState) (commentId : Nat) (limit? skip? : Option Nat)
         (parent : Comment) (r : List Comment),
        s.comments.find? (fun c => c.cid == commentId) = some parent →
        listReplies s commentId limit? skip? = Except.ok r →
        (∃ full : List Comment,
          full.Perm (s.comments.filter (fun c =>
            c.issueId == parent.issueId && c.parentId == some parent.cid
              && !c.deleted))
          ∧ full.Pairwise (fun a b => commentLe a b = true)
          ∧ r = (full.drop (skip?.getD 0)).take (min (limit?.getD 50) 200))
        ∧ (∀ x ∈ r, x.issueId = parent.issueId ∧ x.parentId = some parent.cid
            ∧ x.deleted = false)
        ∧ r.Pairwise (fun a b => commentLe a b = true)
        ∧ r.length ≤ min (limit?.getD 50) 200
        ∧ min (limit?.getD 50) 200 ≤ 200) := by
  constructor
  · intro s issueId limit? skip? issue r hfind hok
    have hr : r = (((s.comments.filter (fun c =>
        c.issueId == issue.iid && c.parentId == none && !c.deleted)).mergeSort
          commentLe).drop (skip?.getD 0)).take (min (limit?.getD 20) 100) := by
      have := hok
      simp only [listIssueComments, hfind] at this
      simpa using this.symm
    obtain ⟨hex, hmem, hsort, hlen⟩ := listWindow_spec s.comments
      (fun c => c.issueId == issue.iid && c.parentId == none && !c.deleted)
      (skip?.getD 0) (min (limit?.getD 20) 100)
    subst hr
    refine ⟨?_, ?_, hsort, hlen, min_le_right _ _⟩
    · obtain ⟨full, h1, h2, h3⟩ := hex
      exact ⟨full, h1, h2, h3⟩
    · intro x hx
      have h4 := hmem x hx
      simp only [Bool.and_eq_true] at h4
      simp at h4
      exact ⟨h4.1.1, h4.1.2, h4.2⟩
  · intro s commentId limit? skip? parent r hfind hok
    have hr : r = (((s.comments.filter (fun c =>
        c.issueId == parent.issueId && c.parentId == some parent.cid
          && !c.deleted)).mergeSort commentLe).drop
            (skip?.getD 0)).take (min (limit?.getD 50) 200) := by
      have := hok
      simp only [listReplies, hfind] at this
      simpa using this.symm
    obtain ⟨hex, hmem, hsort, hlen⟩ := listWindow_spec s.comments
      (fun c => c.issueId == parent.issueId && c.parentId == some parent.cid
        && !c.deleted)
      (skip?.getD 0) (min (limit?.getD 50) 200)
    subst hr
    refine ⟨?_, ?_, hsort, hlen, min_le_right _ _⟩
    · obtain ⟨full, h1, h2, h3⟩ := hex
      exact ⟨full, h1, h2, h3⟩
    · intro x hx
      have h4 := hmem x hx
      simp only [Bool.and_eq_true] at h4
      simp at h4
      exact ⟨h4.1.1, h4.1.2, h4.2⟩

/-- A direct reply to cParent, for the C9 witness. -/
def cChild : Comment :=
  { cid := 15, issueId := 1, authorId := 1, body := "child", parentId := some 10,
    ancestors := [10], edited := false, deleted := false, createdAt := 4 }

def sRep : CState := { issues := [issue1], comments := [cParent, cChild] }

theorem claim_C9_comment_listing_witness :
    (cParent.issueId = issue1.iid ∧ cParent.parentId = none
      ∧ cParent.deleted = false)
    ∧ ([cParent] : List Comment).length ≤ min ((none : Option Nat).getD 20) 100
    ∧ min ((none : Option Nat).getD 20) 100 ≤ 100
    ∧ (cChild.issueId = cParent.issueId ∧ cChild.parentId = some cParent.cid
        ∧ cChild.deleted = false)
    ∧ ([cChild] : List Comment).length ≤ min ((none : Option Nat).getD 50) 200
    ∧ min ((none : Option Nat).getD 50) 200 ≤ 200 := by
  have hfind : s0.issues.find? (fun i => i.iid == 1) = some issue1 := rfl
  have hfil : s0.comments.filter (fun c =>
      c.issueId == issue1.iid && c.parentId == none && !c.deleted) = [cParent] := rfl
  have hok : listIssueComments s0 1 none none = Except.ok [cParent] := by
    simp only [listIssueComments, hfind]
    rw [hfil, List.mergeSort_singleton]
    rfl
  have h1 := claim_C9_comment_listing.1 s0 1 none none issue1 [cParent] hfind hok
  have h2find : sRep.comments.find? (fun c => c.cid == 10) = some cParent := rfl
  have h2fil : sRep.comments.filter (fun c =>
      c.issueId == cParent.issueId && c.parentId == some cParent.cid
        && !c.deleted) = [cChild] := rfl
  have hok2 : listReplies sRep 10 none none = Except.ok [cChild] := by
    simp only [listReplies, h2find]
    rw [h2fil, List.mergeSort_singleton]
    rfl
  have h2 := claim_C9_comment_listing.2 sRep 10 none none cParent [cChild] h2find hok2
  exact ⟨h1.2.1 cParent (by simp), h1.2.2.2.1, h1.2.2.2.2,
         h2.2.1 cChild (by simp), h2.2.2.2.1, h2.2.2.2.2⟩

/-- An admin user, used by the C10 witness and counterexample. -/
def userAdmin : User := { uid := 9, role := Role.admin, isActive := true }

/-- C10 (amended): updateComment never consults the deleted flag: for
every authorized caller supplying a body that is non-empty after
trimming and at most 5000 characters after trimming (the schema
maxlength), editing succeeds even on a soft-deleted comment — the body
is replaced by its trimmed text, edited is set true, deleted stays as it
was, and the issues collection (hence commentCount) is untouched.  The
original claim omitted the maxlength bound enforced at save time. -/
theorem claim_C10_update_deleted_comment_amended
    (s : CState) (user? : Option User) (project? : Option Project)
    (commentId : Nat) (body : String) (c : Comment)
    (hfind : s.comments.find? (fun x => x.cid == commentId) = some c)
    (hcan : canEditOrModerate user? project? (some c) = true)
    (hne : jsTrim body ≠ "")
    (hlen : (jsTrim body).length ≤ 5000) :
    updateComment s user? project? commentId (some body)
      = Except.ok
          ({ s with comments := replaceFirstComment s.comments ({ c with body := jsTrim body, edited := true }) },
           { c with body := jsTrim body, edited := true }) := by
  have hval : commentValidate { c with body := body, edited := true }
      = some { c with body := jsTrim body, edited := true } := by
    simp [commentValidate, hne, hlen]
  simp [updateComment, hfind, hcan, hne, hval]

theorem dropWhile_replicate_a :
    (List.replicate 5001 'a').dropWhile isJsWhitespace = List.replicate 5001 'a' := by
  have h50 : (5001 : Nat) = 5000 + 1 := rfl
  have hws : isJsWhitespace 'a' = false := by decide
  rw [h50, List.replicate_succ, List.dropWhile_cons, hws,
    if_neg (by decide : ¬ ((false : Bool) = true))]

theorem jsTrim_replicate_a :
    jsTrim (String.mk (List.replicate 5001 'a')) = String.mk (List.replicate 5001 'a') := by
  show String.mk ((((List.replicate 5001 'a').dropWhile
    isJsWhitespace).reverse.dropWhile isJsWhitespace).reverse) = _
  rw [dropWhile_replicate_a, List.reverse_replicate, dropWhile_replicate_a,
    List.reverse_replicate]

theorem jsTrim_replicate_a_length :
    (jsTrim (String.mk (List.replicate 5001 'a'))).length = 5001 := by
  rw [jsTrim_replicate_a]
  show (List.replicate 5001 'a').length = 5001
  rw [List.length_replicate]

theorem jsTrim_replicate_a_ne : jsTrim (String.mk (List.replicate 5001 'a')) ≠ "" := by
  intro h
  have h2 : (jsTrim (String.mk (List.replicate 5001 'a'))).length = 0 := by
    rw [h]
    rfl
  rw [jsTrim_replicate_a_length] at h2
  exact absurd h2 (by decide)

/-- C10 counterexample: an admin editing a soft-deleted comment with a
non-empty 5001-character body is rejected by the schema maxlength at
save time, so the edit does not succeed as the claim states. -/
theorem claim_C10_update_deleted_comment_counterexample :
    canEditOrModerate (some userAdmin) (some projBT) (some cDel) = true
    ∧ cDel.deleted = true
    ∧ jsTrim (String.mk (List.replicate 5001 'a')) ≠ ""
    ∧ updateComment sDel (some userAdmin) (some projBT) 30
        (some (String.mk (List.replicate 5001 'a')))
        = Except.error ApiError.invalidDoc := by
  have hfind : sDel.comments.find? (fun x => x.cid == 30) = some cDel := rfl
  have hcan : canEditOrModerate (some userAdmin) (some projBT) (some cDel) = true := rfl
  have hval : commentValidate
      { cDel with body := String.mk (List.replicate 5001 'a'), edited := true }
      = none := by
    simp only [commentValidate]
    split
    · rename_i hcond
      exfalso
      have h5 : (jsTrim (String.mk (List.replicate 5001 'a'))).length ≤ 5000 := hcond.2
      rw [jsTrim_replicate_a_length] at h5
      omega
    · rfl
  refine ⟨hcan, rfl, jsTrim_replicate_a_ne, ?_⟩
  have hne2 := jsTrim_replicate_a_ne
  generalize hbig : String.mk (List.replicate 5001 'a') = big at hne2 hval ⊢
  simp only [updateComment, hfind]
  simp only [hcan, eq_self_iff_true, if_true]
  rw [if_neg hne2]
  simp only [hval]

theorem claim_C10_update_deleted_comment_amended_witness :
    updateComment sDel (some userAdmin) (some projBT) 30 (some ("new"))
      = Except.ok
          ({ sDel with comments := replaceFirstComment sDel.comments ({ cDel with body := jsTrim ("new"), edited := true }) },
           { cDel with body := jsTrim ("new"), edited := true }) :=
  claim_C10_update_deleted_comment_amended sDel (some userAdmin) (some projBT)
    30 "new" cDel (by decide) (by decide) (by decide) (by decide)
